import Mathlib

/-!
Verification development for the historical-bar retrieval, caching and
aggregation pipeline of `trading_platform_v3.1` (`trading_backend/app`).

Conventions of the shallow embedding:
* Timestamps are Unix seconds as `Int`; prices and volumes, stored as
  `float64` by the code, are modelled with exact integer arithmetic
  (the properties under study are max/min/sum/equality facts).
* `np.floor(ts / w) * w` on integral inputs is floor division,
  embedded as `Int.fdiv`.
* Fallible Python code is embedded with `Except`; caught exceptions
  are ordinary values of an outcome type.
-/

/-- One OHLCV bar (`schemas.CandleBase` / one row of the parallel numpy
arrays handed to the resampling kernel). -/
structure Bar where
  ts : Int
  o : Int
  h : Int
  l : Int
  c : Int
  v : Int
deriving DecidableEq, Repr

/-- `np.floor(ts / aggregation_seconds) * aggregation_seconds`
(`numba_resampling_kernels.py`, lines 19 and 37). -/
def bucketStart (w ts : Int) : Int :=
  ts.fdiv w * w

/-- State of the kernel's output arrays during the loop of
`resample_ohlc_cpu_jit`: bars at indices below `current_bar_idx`,
the bar being accumulated at `current_bar_idx`, and `bucket_start_ts`. -/
structure AggState where
  done : List Bar
  cur : Bar
  curStart : Int

/-- The unconditional tail of the kernel's loop body
(`numba_resampling_kernels.py`, lines 47-54): raise the running high,
lower the running low, overwrite the close, add the volume. -/
def updateBar (cur b : Bar) : Bar :=
  { cur with
    h := if b.h > cur.h then b.h else cur.h
    l := if b.l < cur.l then b.l else cur.l
    c := b.c
    v := cur.v + b.v }

/-- One iteration of the loop of `resample_ohlc_cpu_jit`
(`numba_resampling_kernels.py`, lines 30-54): when
`ts >= bucket_start_ts + aggregation_seconds` the current bar is
complete and a new one is initialised (open/high/low from the incoming
bar, volume reset to 0; the close slot of the fresh `np.zeros` cell is
0 until the unconditional update overwrites it). -/
def resampleStep (w : Int) (s : AggState) (b : Bar) : AggState :=
  if s.curStart + w ≤ b.ts then
    let ns := bucketStart w b.ts
    { done := s.done ++ [s.cur]
      cur := updateBar { ts := ns, o := b.o, h := b.h, l := b.l, c := 0, v := 0 } b
      curStart := ns }
  else
    { s with cur := updateBar s.cur b }

/-- `resample_ohlc_cpu_jit` composed with the trim done by
`launch_resample_ohlc`: the list of the `current_bar_idx + 1` bars the
kernel wrote.  Empty input returns 0 bars.  The first input bar seeds
the first output bar directly (`numba_resampling_kernels.py`,
lines 22-27). -/
def resample_ohlc (w : Int) : List Bar → List Bar
  | [] => []
  | b0 :: rest =>
    let s0 : AggState :=
      { done := []
        cur := { ts := bucketStart w b0.ts, o := b0.o, h := b0.h, l := b0.l, c := b0.c, v := b0.v }
        curStart := bucketStart w b0.ts }
    let s := rest.foldl (resampleStep w) s0
    s.done ++ [s.cur]

/-- Spec-side grouping of the input into buckets, following the words of
the claims: a new bucket begins exactly when an input timestamp is
`>= previous_bucket_start + w`, the bucket start being
`floor(first member timestamp / w) * w`.  `start` is the running bucket
start, `cur` the members of the open bucket. -/
def specGroupsAux (w : Int) : Int → List Bar → List Bar → List (List Bar)
  | _, cur, [] => [cur]
  | start, cur, b :: rest =>
    if start + w ≤ b.ts then
      cur :: specGroupsAux w (bucketStart w b.ts) [b] rest
    else
      specGroupsAux w start (cur ++ [b]) rest

/-- Spec-side bucket assignment for a whole series. -/
def specGroups (w : Int) : List Bar → List (List Bar)
  | [] => []
  | b0 :: rest => specGroupsAux w (bucketStart w b0.ts) [b0] rest

/-- Spec-side aggregate of one bucket, following the words of the claims:
open of the first member, maximum of member highs, minimum of member
lows, close of the last member, sum of member volumes, timestamp
`floor(first member timestamp / w) * w`. -/
def specAggBar (w : Int) : List Bar → Bar
  | [] => { ts := 0, o := 0, h := 0, l := 0, c := 0, v := 0 }
  | b :: rest =>
    { ts := bucketStart w b.ts
      o := b.o
      h := rest.foldl (fun a x => max a x.h) b.h
      l := rest.foldl (fun a x => min a x.l) b.l
      c := (rest.getLastD b).c
      v := rest.foldl (fun a x => a + x.v) b.v }

-- ### Arithmetic facts about `bucketStart`

lemma bucketStart_eq_ediv (w ts : Int) (hw : 0 < w) :
    bucketStart w ts = ts / w * w := by
  unfold bucketStart
  rw [Int.fdiv_eq_ediv _ (le_of_lt hw)]

lemma bucketStart_le (w ts : Int) (hw : 0 < w) : bucketStart w ts ≤ ts := by
  rw [bucketStart_eq_ediv w ts hw]
  have h1 := Int.ediv_add_emod ts w
  have h2 := Int.emod_nonneg ts (ne_of_gt hw)
  nlinarith [h1, h2]

lemma lt_bucketStart_add (w ts : Int) (hw : 0 < w) : ts < bucketStart w ts + w := by
  rw [bucketStart_eq_ediv w ts hw]
  have h1 := Int.ediv_add_emod ts w
  have h2 := Int.emod_lt_of_pos ts hw
  nlinarith [h1, h2]

lemma dvd_bucketStart (w ts : Int) : w ∣ bucketStart w ts := by
  unfold bucketStart
  exact Dvd.intro_left (ts.fdiv w) rfl

lemma bucketStart_emod (w ts : Int) : bucketStart w ts % w = 0 :=
  Int.emod_eq_zero_of_dvd (dvd_bucketStart w ts)

lemma le_bucketStart_of_mul_le (w ts k : Int) (hw : 0 < w) (h : k * w ≤ ts) :
    k * w ≤ bucketStart w ts := by
  rw [bucketStart_eq_ediv w ts hw]
  rcases le_or_lt k (ts / w) with hk | hk
  · exact mul_le_mul_of_nonneg_right hk (le_of_lt hw)
  · exfalso
    have hk1 : ts / w + 1 ≤ k := hk
    have : (ts / w + 1) * w ≤ k * w := mul_le_mul_of_nonneg_right hk1 (le_of_lt hw)
    have h1 := Int.ediv_add_emod ts w
    have h2 := Int.emod_lt_of_pos ts hw
    nlinarith [this, h1, h2]

lemma bucketStart_of_aligned (w ts : Int) (hw : 0 < w) (h : ts % w = 0) :
    bucketStart w ts = ts := by
  rw [bucketStart_eq_ediv w ts hw]
  have h1 := Int.ediv_add_emod ts w
  nlinarith [h1]

-- ### The kernel loop computes the spec-side aggregation, group by group

lemma if_gt_eq_max (a x : Int) : (if x > a then x else a) = max a x := by
  rcases lt_trichotomy a x with h | h | h
  · simp [h, max_eq_right (le_of_lt h)]
  · simp [h]
  · have : ¬ x > a := not_lt_of_gt h
    simp [this, max_eq_left (le_of_lt h)]

lemma if_lt_eq_min (a x : Int) : (if x < a then x else a) = min a x := by
  rcases lt_trichotomy x a with h | h | h
  · simp [h, min_eq_right (le_of_lt h)]
  · simp [h]
  · have : ¬ x < a := not_lt_of_gt h
    simp [this, min_eq_left (le_of_lt h)]

lemma updateBar_snoc (w : Int) (b0 b : Bar) (g : List Bar) :
    updateBar (specAggBar w (b0 :: g)) b = specAggBar w (b0 :: (g ++ [b])) := by
  unfold updateBar specAggBar
  simp [List.foldl_append, List.getLastD_concat, if_gt_eq_max, if_lt_eq_min]

lemma updateBar_init (w : Int) (b : Bar) :
    updateBar { ts := bucketStart w b.ts, o := b.o, h := b.h, l := b.l, c := 0, v := 0 } b
      = specAggBar w [b] := by
  unfold updateBar specAggBar
  simp

/-- Main loop invariant: folding the kernel step over the remaining input,
starting from an accumulator that holds the aggregate of the open bucket
`g` (headed by `b0`), produces the completed bars followed by the
spec-side aggregates of the spec-side grouping. -/
lemma foldl_resampleStep_eq (w : Int) :
    ∀ (rest done g : List Bar) (b0 : Bar), g.head? = some b0 →
      (let s := rest.foldl (resampleStep w)
          { done := done, cur := specAggBar w g, curStart := bucketStart w b0.ts }
       s.done ++ [s.cur])
        = done ++ (specGroupsAux w (bucketStart w b0.ts) g rest).map (specAggBar w) := by
  intro rest
  induction rest with
  | nil =>
    intro done g b0 _
    simp [specGroupsAux]
  | cons b rs ih =>
    intro done g b0 hg
    obtain ⟨g', rfl⟩ : ∃ g', g = b0 :: g' := by
      cases g with
      | nil => simp at hg
      | cons x xs => exact ⟨xs, by simpa using congrArg (fun o => o.getD x :: xs) hg⟩
    by_cases hb : bucketStart w b0.ts + w ≤ b.ts
    · have hstep : resampleStep w
          { done := done, cur := specAggBar w (b0 :: g'), curStart := bucketStart w b0.ts } b
          = { done := done ++ [specAggBar w (b0 :: g')], cur := specAggBar w [b],
              curStart := bucketStart w b.ts } := by
        unfold resampleStep
        simp only [hb, if_pos]
        rw [updateBar_init]
      have ihb := ih (done ++ [specAggBar w (b0 :: g')]) [b] b rfl
      simp only [List.foldl_cons, hstep]
      rw [ihb]
      simp [specGroupsAux, hb]
    · have hstep : resampleStep w
          { done := done, cur := specAggBar w (b0 :: g'), curStart := bucketStart w b0.ts } b
          = { done := done, cur := specAggBar w (b0 :: (g' ++ [b])),
              curStart := bucketStart w b0.ts } := by
        unfold resampleStep
        simp only [hb, if_neg, not_false_iff]
        rw [updateBar_snoc]
      have ihb := ih done (b0 :: (g' ++ [b])) b0 rfl
      simp only [List.foldl_cons, hstep]
      rw [ihb]
      simp [specGroupsAux, hb]

/-- The kernel output equals the spec-side aggregation of the spec-side
grouping, for any input. -/
lemma resample_ohlc_eq_specMap (w : Int) (input : List Bar) :
    resample_ohlc w input = (specGroups w input).map (specAggBar w) := by
  cases input with
  | nil => simp [resample_ohlc, specGroups]
  | cons b0 rest =>
    have h := foldl_resampleStep_eq w rest [] [b0] b0 rfl
    simpa [resample_ohlc, specGroups, specAggBar] using h

-- ### Structure of the spec-side grouping

lemma specGroupsAux_flatten (w : Int) :
    ∀ (rest : List Bar) (start : Int) (g : List Bar),
      (specGroupsAux w start g rest).flatten = g ++ rest := by
  intro rest
  induction rest with
  | nil => intro start g; simp [specGroupsAux]
  | cons b rs ih =>
    intro start g
    by_cases hb : start + w ≤ b.ts
    · simp [specGroupsAux, hb, ih]
    · simp [specGroupsAux, hb, ih]

lemma specGroups_flatten (w : Int) (input : List Bar) :
    (specGroups w input).flatten = input := by
  cases input with
  | nil => simp [specGroups]
  | cons b0 rest => simp [specGroups, specGroupsAux_flatten]

lemma specGroupsAux_ne_nil (w : Int) :
    ∀ (rest : List Bar) (start : Int) (g : List Bar), g ≠ [] →
      ∀ x ∈ specGroupsAux w start g rest, x ≠ [] := by
  intro rest
  induction rest with
  | nil =>
    intro start g hg x hx
    simp only [specGroupsAux, List.mem_singleton] at hx
    subst hx
    exact hg
  | cons b rs ih =>
    intro start g hg x hx
    by_cases hb : start + w ≤ b.ts
    · simp only [specGroupsAux, hb, if_pos, List.mem_cons] at hx
      rcases hx with rfl | hx
      · exact hg
      · exact ih _ [b] (by simp) x hx
    · simp only [specGroupsAux, hb, if_neg, not_false_iff] at hx
      exact ih _ (g ++ [b]) (by simp [hg]) x hx

lemma specGroups_ne_nil (w : Int) (input : List Bar) :
    ∀ x ∈ specGroups w input, x ≠ [] := by
  cases input with
  | nil => simp [specGroups]
  | cons b0 rest => exact specGroupsAux_ne_nil w rest _ [b0] (by simp)

lemma specGroupsAux_length_le (w : Int) :
    ∀ (rest : List Bar) (start : Int) (g : List Bar),
      (specGroupsAux w start g rest).length ≤ 1 + rest.length := by
  intro rest
  induction rest with
  | nil => intro start g; simp [specGroupsAux]
  | cons b rs ih =>
    intro start g
    by_cases hb : start + w ≤ b.ts
    · simp only [specGroupsAux, hb, if_pos, List.length_cons]
      have := ih (bucketStart w b.ts) [b]
      omega
    · simp only [specGroupsAux, hb, if_neg, not_false_iff, List.length_cons]
      have := ih start (g ++ [b])
      omega

lemma specGroupsAux_head_ts (w : Int) :
    ∀ (rest : List Bar) (start : Int) (b0 : Bar) (xs : List Bar),
      ((specGroupsAux w start (b0 :: xs) rest).map (fun x => (specAggBar w x).ts)).head?
        = some (bucketStart w b0.ts) := by
  intro rest
  induction rest with
  | nil =>
    intro start b0 xs
    simp [specGroupsAux, specAggBar]
  | cons b rs ih =>
    intro start b0 xs
    by_cases hb : start + w ≤ b.ts
    · simp [specGroupsAux, hb, specAggBar]
    · have := ih start b0 (xs ++ [b])
      simp only [specGroupsAux, hb, if_neg, not_false_iff]
      simpa using this

/-- Bucket start timestamps of successive output buckets strictly
increase: a new bucket is only opened at a timestamp at least one full
width past the current start, and its floored start cannot fall back. -/
lemma specGroupsAux_chain_lt (w : Int) (hw : 0 < w) :
    ∀ (rest : List Bar) (b0 : Bar) (xs : List Bar),
      ((specGroupsAux w (bucketStart w b0.ts) (b0 :: xs) rest).map
        (fun x => (specAggBar w x).ts)).Chain' (· < ·) := by
  intro rest
  induction rest with
  | nil =>
    intro b0 xs
    simp [specGroupsAux]
  | cons b rs ih =>
    intro b0 xs
    by_cases hb : bucketStart w b0.ts + w ≤ b.ts
    · simp only [specGroupsAux, hb, if_pos, List.map_cons]
      rw [List.chain'_cons']
      constructor
      · intro y hy
        rw [specGroupsAux_head_ts w rs (bucketStart w b.ts) b []] at hy
        simp only [Option.mem_def, Option.some.injEq] at hy
        subst hy
        have hstart : (specAggBar w (b0 :: xs)).ts = bucketStart w b0.ts := by
          simp [specAggBar]
        rw [hstart]
        obtain ⟨q, hq⟩ := dvd_bucketStart w b0.ts
        have hmul : (q + 1) * w ≤ b.ts := by nlinarith [hb, hq]
        have := le_bucketStart_of_mul_le w b.ts (q + 1) hw hmul
        nlinarith [this, hq]
      · exact ih b []
    · have := ih b0 (xs ++ [b])
      simp only [specGroupsAux, hb, if_neg, not_false_iff]
      simpa using this

/-- If every remaining timestamp stays below `start + w`, the open group
absorbs the whole rest: a single bucket. -/
lemma specGroupsAux_single (w : Int) :
    ∀ (rest : List Bar) (start : Int) (g : List Bar),
      (∀ b ∈ rest, b.ts < start + w) →
      specGroupsAux w start g rest = [g ++ rest] := by
  intro rest
  induction rest with
  | nil => intro start g _; simp [specGroupsAux]
  | cons b rs ih =>
    intro start g hall
    have hb : ¬ start + w ≤ b.ts := by
      have := hall b (by simp)
      omega
    simp only [specGroupsAux, hb, if_neg, not_false_iff]
    rw [ih start (g ++ [b]) (fun x hx => hall x (by simp [hx]))]
    simp

/-- If the rest splits as `pre ++ b :: post` where `pre` stays in the
current bucket and `b` crosses the boundary, the grouping splits there. -/
lemma specGroupsAux_split (w : Int) :
    ∀ (pre : List Bar) (start : Int) (g : List Bar) (b : Bar) (post : List Bar),
      (∀ x ∈ pre, x.ts < start + w) → start + w ≤ b.ts →
      specGroupsAux w start g (pre ++ b :: post)
        = (g ++ pre) :: specGroupsAux w (bucketStart w b.ts) [b] post := by
  intro pre
  induction pre with
  | nil =>
    intro start g b post _ hb
    simp [specGroupsAux, hb]
  | cons x xs ih =>
    intro start g b post hall hb
    have hx : ¬ start + w ≤ x.ts := by
      have := hall x (by simp)
      omega
    show specGroupsAux w start g (x :: (xs ++ b :: post)) = _
    simp only [specGroupsAux, hx, if_neg, not_false_iff]
    rw [ih start (g ++ [x]) b post (fun y hy => hall y (by simp [hy])) hb]
    simp

-- ### Per-bucket aggregate facts

lemma le_foldl_max (f : Bar → Int) :
    ∀ (l : List Bar) (a : Int), a ≤ l.foldl (fun acc x => max acc (f x)) a := by
  intro l
  induction l with
  | nil => intro a; simp
  | cons x xs ih =>
    intro a
    calc a ≤ max a (f x) := le_max_left _ _
    _ ≤ xs.foldl (fun acc y => max acc (f y)) (max a (f x)) := ih _

lemma mem_le_foldl_max (f : Bar → Int) :
    ∀ (l : List Bar) (a : Int) (b : Bar), b ∈ l →
      f b ≤ l.foldl (fun acc x => max acc (f x)) a := by
  intro l
  induction l with
  | nil => intro a b hb; simp at hb
  | cons x xs ih =>
    intro a b hb
    rcases List.mem_cons.mp hb with rfl | hb
    · calc f b ≤ max a (f b) := le_max_right _ _
      _ ≤ xs.foldl (fun acc y => max acc (f y)) (max a (f b)) := le_foldl_max f xs _
    · exact ih _ b hb

lemma foldl_min_le (f : Bar → Int) :
    ∀ (l : List Bar) (a : Int), l.foldl (fun acc x => min acc (f x)) a ≤ a := by
  intro l
  induction l with
  | nil => intro a; simp
  | cons x xs ih =>
    intro a
    calc xs.foldl (fun acc y => min acc (f y)) (min a (f x)) ≤ min a (f x) := ih _
    _ ≤ a := min_le_left _ _

lemma foldl_min_le_mem (f : Bar → Int) :
    ∀ (l : List Bar) (a : Int) (b : Bar), b ∈ l →
      l.foldl (fun acc x => min acc (f x)) a ≤ f b := by
  intro l
  induction l with
  | nil => intro a b hb; simp at hb
  | cons x xs ih =>
    intro a b hb
    rcases List.mem_cons.mp hb with rfl | hb
    · calc xs.foldl (fun acc y => min acc (f y)) (min a (f b)) ≤ min a (f b) :=
        foldl_min_le f xs _
      _ ≤ f b := min_le_right _ _
    · exact ih _ b hb

lemma foldl_add_eq_sum :
    ∀ (l : List Bar) (a : Int),
      l.foldl (fun acc x => acc + x.v) a = a + (l.map Bar.v).sum := by
  intro l
  induction l with
  | nil => intro a; simp
  | cons x xs ih =>
    intro a
    simp only [List.foldl_cons, List.map_cons, List.sum_cons, ih]
    ring

lemma specAggBar_v (w : Int) (g : List Bar) :
    (specAggBar w g).v = (g.map Bar.v).sum := by
  cases g with
  | nil => simp [specAggBar]
  | cons b rest => simp [specAggBar, foldl_add_eq_sum]

lemma specAggBar_ts (w : Int) (b0 : Bar) (g : List Bar) :
    (specAggBar w (b0 :: g)).ts = bucketStart w b0.ts := by
  simp [specAggBar]

lemma getLast?_cons_eq_getLastD (b0 : Bar) :
    ∀ (l : List Bar), (b0 :: l).getLast? = some (l.getLastD b0) := by
  intro l
  induction l generalizing b0 with
  | nil => rfl
  | cons x xs ih => simp [List.getLast?_cons_cons, ih x]

lemma specGroupsAux_length_pos (w : Int) :
    ∀ (rest : List Bar) (start : Int) (g : List Bar),
      1 ≤ (specGroupsAux w start g rest).length := by
  intro rest
  induction rest with
  | nil => intro start g; simp [specGroupsAux]
  | cons b rs ih =>
    intro start g
    by_cases hb : start + w ≤ b.ts
    · simp [specGroupsAux, hb]
    · simp only [specGroupsAux, hb, if_neg, not_false_iff]
      exact ih start (g ++ [b])

lemma sum_v_flatten :
    ∀ (L : List (List Bar)),
      (L.map (fun g => (g.map Bar.v).sum)).sum = (L.flatten.map Bar.v).sum := by
  intro L
  induction L with
  | nil => simp
  | cons g gs ih => simp [ih]

/-- C1: for every non-empty, timestamp-sorted input and bucket width
`w > 0`, the resampling kernel emits exactly one bar per non-empty
bucket, each aggregated per the spec (open of first member, max of
highs, min of lows, close of last member, sum of volumes, bucket start
`floor(first member ts / w) * w`), buckets being delimited exactly at
timestamps `>= previous_bucket_start + w` (this rule is the definition
of `specGroups`; the aggregate shape is the definition of
`specAggBar`). -/
theorem c1_resample_matches_bucket_spec (w : Int) (hw : 0 < w) (input : List Bar)
    (hne : input ≠ []) (hsorted : List.Chain' (fun a b => a.ts ≤ b.ts) input) :
    resample_ohlc w input = (specGroups w input).map (specAggBar w)
      ∧ ∀ g ∈ specGroups w input, g ≠ [] :=
  ⟨resample_ohlc_eq_specMap w input, specGroups_ne_nil w input⟩

/-- Witness for C1 at a concrete three-bar input with width 2. -/
theorem c1_witness :
    (0 : Int) < 2
    ∧ ([{ ts := 0, o := 10, h := 12, l := 9, c := 11, v := 5 },
        { ts := 1, o := 11, h := 13, l := 8, c := 10, v := 2 },
        { ts := 5, o := 7, h := 9, l := 6, c := 8, v := 1 }] : List Bar) ≠ []
    ∧ List.Chain' (fun a b : Bar => a.ts ≤ b.ts)
        [{ ts := 0, o := 10, h := 12, l := 9, c := 11, v := 5 },
         { ts := 1, o := 11, h := 13, l := 8, c := 10, v := 2 },
         { ts := 5, o := 7, h := 9, l := 6, c := 8, v := 1 }]
    ∧ (resample_ohlc 2
        [{ ts := 0, o := 10, h := 12, l := 9, c := 11, v := 5 },
         { ts := 1, o := 11, h := 13, l := 8, c := 10, v := 2 },
         { ts := 5, o := 7, h := 9, l := 6, c := 8, v := 1 }]
        = (specGroups 2
            [{ ts := 0, o := 10, h := 12, l := 9, c := 11, v := 5 },
             { ts := 1, o := 11, h := 13, l := 8, c := 10, v := 2 },
             { ts := 5, o := 7, h := 9, l := 6, c := 8, v := 1 }]).map (specAggBar 2)
        ∧ ∀ g ∈ specGroups 2
            [{ ts := 0, o := 10, h := 12, l := 9, c := 11, v := 5 },
             { ts := 1, o := 11, h := 13, l := 8, c := 10, v := 2 },
             { ts := 5, o := 7, h := 9, l := 6, c := 8, v := 1 }], g ≠ []) :=
  ⟨by decide, by decide, by simp [List.chain'_cons, List.chain'_singleton],
    c1_resample_matches_bucket_spec 2 (by decide) _ (by decide)
      (by simp [List.chain'_cons, List.chain'_singleton])⟩

/-- C9: for sorted input and `w > 0` the kernel writes 0 bars on empty
input, between 1 and `n` bars on input of length `n ≥ 1` (so the
caller's `n`-length output allocation in `launch_resample_ohlc` is
always sufficient: the highest index written is `count - 1 ≤ n - 1`),
and the output timestamps are strictly increasing. -/
theorem c9_output_bounds_and_monotone (w : Int) (hw : 0 < w) (input : List Bar)
    (hsorted : List.Chain' (fun a b => a.ts ≤ b.ts) input) :
    resample_ohlc w ([] : List Bar) = []
    ∧ (input ≠ [] → 1 ≤ (resample_ohlc w input).length)
    ∧ (resample_ohlc w input).length ≤ input.length
    ∧ ((resample_ohlc w input).map Bar.ts).Chain' (· < ·) := by
  refine ⟨rfl, ?_, ?_, ?_⟩
  · intro hne
    rw [resample_ohlc_eq_specMap]
    cases input with
    | nil => exact absurd rfl hne
    | cons b0 rest =>
      simp only [specGroups, List.length_map]
      exact specGroupsAux_length_pos w rest _ [b0]
  · rw [resample_ohlc_eq_specMap]
    cases input with
    | nil => simp [specGroups]
    | cons b0 rest =>
      simp only [specGroups, List.length_map, List.length_cons]
      have := specGroupsAux_length_le w rest (bucketStart w b0.ts) [b0]
      omega
  · rw [resample_ohlc_eq_specMap]
    cases input with
    | nil => simp [specGroups]
    | cons b0 rest =>
      simp only [specGroups, List.map_map]
      exact specGroupsAux_chain_lt w hw rest b0 []

/-- Witness for C9 at a concrete three-bar input with width 10. -/
theorem c9_witness :
    (0 : Int) < 10
    ∧ List.Chain' (fun a b : Bar => a.ts ≤ b.ts)
        [{ ts := 3, o := 1, h := 2, l := 0, c := 1, v := 1 },
         { ts := 4, o := 1, h := 2, l := 0, c := 1, v := 1 },
         { ts := 25, o := 1, h := 2, l := 0, c := 1, v := 1 }]
    ∧ (resample_ohlc 10 ([] : List Bar) = []
        ∧ (([{ ts := 3, o := 1, h := 2, l := 0, c := 1, v := 1 },
             { ts := 4, o := 1, h := 2, l := 0, c := 1, v := 1 },
             { ts := 25, o := 1, h := 2, l := 0, c := 1, v := 1 }] : List Bar) ≠ [] →
            1 ≤ (resample_ohlc 10
              [{ ts := 3, o := 1, h := 2, l := 0, c := 1, v := 1 },
               { ts := 4, o := 1, h := 2, l := 0, c := 1, v := 1 },
               { ts := 25, o := 1, h := 2, l := 0, c := 1, v := 1 }]).length)
        ∧ (resample_ohlc 10
            [{ ts := 3, o := 1, h := 2, l := 0, c := 1, v := 1 },
             { ts := 4, o := 1, h := 2, l := 0, c := 1, v := 1 },
             { ts := 25, o := 1, h := 2, l := 0, c := 1, v := 1 }]).length
            ≤ ([{ ts := 3, o := 1, h := 2, l := 0, c := 1, v := 1 },
                { ts := 4, o := 1, h := 2, l := 0, c := 1, v := 1 },
                { ts := 25, o := 1, h := 2, l := 0, c := 1, v := 1 }] : List Bar).length
        ∧ ((resample_ohlc 10
            [{ ts := 3, o := 1, h := 2, l := 0, c := 1, v := 1 },
             { ts := 4, o := 1, h := 2, l := 0, c := 1, v := 1 },
             { ts := 25, o := 1, h := 2, l := 0, c := 1, v := 1 }]).map Bar.ts).Chain' (· < ·)) :=
  ⟨by decide, by simp [List.chain'_cons, List.chain'_singleton],
    c9_output_bounds_and_monotone 10 (by decide) _
      (by simp [List.chain'_cons, List.chain'_singleton])⟩

lemma chainStep_mem_bound :
    ∀ (rest : List Bar) (b0 : Bar),
      List.Chain' (fun a b => b.ts = a.ts + 1) (b0 :: rest) →
      ∀ b ∈ rest, b0.ts + 1 ≤ b.ts ∧ b.ts ≤ b0.ts + rest.length := by
  intro rest
  induction rest with
  | nil => intro b0 _ b hb; simp at hb
  | cons x xs ih =>
    intro b0 hchain b hb
    rw [List.chain'_cons] at hchain
    obtain ⟨hx, hrest⟩ := hchain
    rcases List.mem_cons.mp hb with rfl | hb
    · simp only [List.length_cons]
      omega
    · have := ih x hrest b hb
      simp only [List.length_cons]
      omega

/-- If two consecutive blocks each live in one bucket and the second
block's first bar crosses the boundary, the kernel emits exactly two
bars. -/
lemma resample_two_blocks (w : Int) (b0 : Bar) (pre : List Bar) (bmid : Bar)
    (post : List Bar)
    (h1 : ∀ x ∈ pre, x.ts < bucketStart w b0.ts + w)
    (h2 : bucketStart w b0.ts + w ≤ bmid.ts)
    (h3 : ∀ x ∈ post, x.ts < bucketStart w bmid.ts + w) :
    (resample_ohlc w (b0 :: (pre ++ bmid :: post))).length = 2 := by
  rw [resample_ohlc_eq_specMap]
  simp only [specGroups]
  rw [specGroupsAux_split w pre (bucketStart w b0.ts) [b0] bmid post h1 h2]
  rw [specGroupsAux_single w post (bucketStart w bmid.ts) [bmid] h3]
  simp

/-- Generator for the first block of the C7 counterexample: bars at
timestamps 1801, 1802, .... -/
def c7g1 (i : Nat) : Bar :=
  { ts := 1801 + (i : Int), o := 1, h := 1, l := 1, c := 1, v := 1 }

/-- Generator for the second block of the C7 counterexample: bars at
timestamps 3601, 3602, .... -/
def c7g2 (i : Nat) : Bar :=
  { ts := 3601 + (i : Int), o := 1, h := 1, l := 1, c := 1, v := 1 }

/-- The 3600 consecutive one-second bars used against C7: timestamps
1800, 1801, ..., 5399 (the run starts mid-bucket). -/
def c7cexBars : List Bar :=
  { ts := 1800, o := 1, h := 1, l := 1, c := 1, v := 1 }
    :: (((List.range 1799).map c7g1)
        ++ ({ ts := 3600, o := 1, h := 1, l := 1, c := 1, v := 1 }
            :: (List.range 1799).map c7g2))

lemma c7_block1_head :
    ((List.range 1799).map c7g1).head? = some (c7g1 0) := by
  rw [show (1799 : Nat) = 1798 + 1 from rfl, List.range_succ_eq_map]
  simp

lemma c7_block2_head :
    ((List.range 1799).map c7g2).head? = some (c7g2 0) := by
  rw [show (1799 : Nat) = 1798 + 1 from rfl, List.range_succ_eq_map]
  simp

lemma c7_block1_last :
    ((List.range 1799).map c7g1).getLast? = some (c7g1 1798) := by
  rw [show (List.range 1799) = List.range 1798 ++ [1798] from by rw [List.range_succ]]
  simp

/-- Counterexample to C7 as stated: `c7cexBars` is a sorted series of
3600 consecutive one-second bars (each timestamp is the predecessor
plus one), yet aggregating with `w = 3600` yields two bars, not one,
because the run starts mid-bucket (first timestamp 1800 is not a
multiple of 3600). -/
theorem c7_counterexample_unaligned_two_bars :
    c7cexBars.length = 3600
    ∧ List.Chain' (fun a b => b.ts = a.ts + 1) c7cexBars
    ∧ (resample_ohlc 3600 c7cexBars).length = 2
    ∧ (resample_ohlc 3600 c7cexBars).length ≠ 1 := by
  have hlen : c7cexBars.length = 3600 := by
    simp [c7cexBars]
  have hb1 : bucketStart 3600 (1800 : Int) = 0 := by decide
  have hb2 : bucketStart 3600 (3600 : Int) = 3600 := by decide
  have hchain : List.Chain' (fun a b : Bar => b.ts = a.ts + 1) c7cexBars := by
    rw [c7cexBars]
    rw [List.chain'_cons']
    constructor
    · intro y hy
      rw [List.head?_append, c7_block1_head] at hy
      simp only [Option.or_some, Option.mem_def, Option.some.injEq] at hy
      subst hy
      decide
    · rw [List.chain'_append]
      refine ⟨?_, ?_, ?_⟩
      · rw [List.chain'_map]
        rw [show (1799 : Nat) = 1798 + 1 from rfl, List.chain'_range_succ]
        intro m hm
        simp only [c7g1]
        push_cast
        ring
      · rw [List.chain'_cons']
        constructor
        · intro y hy
          rw [c7_block2_head] at hy
          simp only [Option.mem_def, Option.some.injEq] at hy
          subst hy
          decide
        · rw [List.chain'_map]
          rw [show (1799 : Nat) = 1798 + 1 from rfl, List.chain'_range_succ]
          intro m hm
          simp only [c7g2]
          push_cast
          ring
      · intro x hx y hy
        rw [c7_block1_last] at hx
        simp only [Option.mem_def, Option.some.injEq] at hx
        subst hx
        simp only [List.head?_cons, Option.mem_def, Option.some.injEq] at hy
        subst hy
        decide
  have hres : (resample_ohlc 3600 c7cexBars).length = 2 := by
    rw [c7cexBars]
    apply resample_two_blocks
    · intro x hx
      simp only [List.mem_map, List.mem_range] at hx
      obtain ⟨i, hi, rfl⟩ := hx
      simp only [hb1, c7g1]
      omega
    · simp only [hb1]
      decide
    · intro x hx
      simp only [List.mem_map, List.mem_range] at hx
      obtain ⟨i, hi, rfl⟩ := hx
      simp only [hb2, c7g2]
      omega
  exact ⟨hlen, hchain, hres, by omega⟩

/-- C7, amended: the claim holds once the 3600 consecutive one-second
bars are additionally required to start at a timestamp that is a
multiple of 3600 (i.e. the run does not straddle a bucket boundary):
aggregating with `w = 3600` then yields exactly one bar whose open is
the first input's open and whose close is the last input's close. -/
theorem c7_amended_aligned_hour (b0 : Bar) (rest : List Bar)
    (hlen : (b0 :: rest).length = 3600)
    (hconsec : List.Chain' (fun a b => b.ts = a.ts + 1) (b0 :: rest))
    (halign : b0.ts % 3600 = 0) :
    (resample_ohlc 3600 (b0 :: rest)).length = 1
    ∧ (resample_ohlc 3600 (b0 :: rest)).head?.map Bar.o = some b0.o
    ∧ (resample_ohlc 3600 (b0 :: rest)).head?.map Bar.c
        = ((b0 :: rest).getLast?).map Bar.c := by
  have hb : bucketStart 3600 b0.ts = b0.ts :=
    bucketStart_of_aligned 3600 b0.ts (by norm_num) halign
  have hrl : rest.length = 3599 := by simpa using hlen
  have hall : ∀ x ∈ rest, x.ts < bucketStart 3600 b0.ts + 3600 := by
    intro x hx
    have := chainStep_mem_bound rest b0 hconsec x hx
    rw [hb]
    omega
  have hgroups : specGroups 3600 (b0 :: rest) = [b0 :: rest] := by
    simp only [specGroups]
    rw [specGroupsAux_single 3600 rest (bucketStart 3600 b0.ts) [b0] hall]
    simp
  rw [resample_ohlc_eq_specMap, hgroups]
  refine ⟨by simp, ?_, ?_⟩
  · simp [specAggBar]
  · simp [specAggBar, getLast?_cons_eq_getLastD]

/-- Generator for the bars of the C7 witness: timestamps 1, 2, .... -/
def c7wg (i : Nat) : Bar :=
  { ts := 1 + (i : Int), o := 4, h := 5, l := 1, c := 2, v := 1 }

lemma c7w_head : ((List.range 3599).map c7wg).head? = some (c7wg 0) := by
  rw [show (3599 : Nat) = 3598 + 1 from rfl, List.range_succ_eq_map]
  simp

lemma c7w_chain :
    List.Chain' (fun a b : Bar => b.ts = a.ts + 1)
      ({ ts := 0, o := 9, h := 11, l := 8, c := 10, v := 1 }
        :: (List.range 3599).map c7wg) := by
  rw [List.chain'_cons']
  constructor
  · intro y hy
    rw [c7w_head] at hy
    simp only [Option.mem_def, Option.some.injEq] at hy
    subst hy
    decide
  · rw [List.chain'_map]
    rw [show (3599 : Nat) = 3598 + 1 from rfl, List.chain'_range_succ]
    intro m hm
    simp only [c7wg]
    push_cast
    ring

/-- Witness for the amended C7 at the aligned run 0, 1, ..., 3599. -/
theorem c7_witness :
    ({ ts := 0, o := 9, h := 11, l := 8, c := 10, v := 1 }
        :: (List.range 3599).map c7wg).length = 3600
    ∧ ((0 : Int) % 3600 = 0)
    ∧ ((resample_ohlc 3600
          ({ ts := 0, o := 9, h := 11, l := 8, c := 10, v := 1 }
            :: (List.range 3599).map c7wg)).length = 1
        ∧ (resample_ohlc 3600
            ({ ts := 0, o := 9, h := 11, l := 8, c := 10, v := 1 }
              :: (List.range 3599).map c7wg)).head?.map Bar.o
            = some ({ ts := 0, o := 9, h := 11, l := 8, c := 10, v := 1 } : Bar).o
        ∧ (resample_ohlc 3600
            ({ ts := 0, o := 9, h := 11, l := 8, c := 10, v := 1 }
              :: (List.range 3599).map c7wg)).head?.map Bar.c
            = (({ ts := 0, o := 9, h := 11, l := 8, c := 10, v := 1 }
                :: (List.range 3599).map c7wg).getLast?).map Bar.c) :=
  ⟨by simp, by decide,
    c7_amended_aligned_hour { ts := 0, o := 9, h := 11, l := 8, c := 10, v := 1 }
      ((List.range 3599).map c7wg) (by simp) c7w_chain (by decide)⟩

/-- Counterexample to C8 as stated: the code never enforces that a bar's
open/close lie within its high/low.  For the (sorted, single-bar) input
whose bar has open 5 but high 1, the single output bucket has high 1,
which is smaller than the member's open — so "each output bucket's high
is greater than or equal to every member bar's open" fails for
arbitrary sorted input. -/
theorem c8_counterexample_invalid_ohlc_bar :
    ¬ (∀ g ∈ specGroups 1 [({ ts := 0, o := 5, h := 1, l := 0, c := 0, v := 0 } : Bar)],
        ∀ b ∈ g, b.o ≤ (specAggBar 1 g).h) := by
  decide

lemma specAggBar_h_bound (w : Int) (g : List Bar) (b : Bar) (hb : b ∈ g) :
    b.h ≤ (specAggBar w g).h := by
  cases g with
  | nil => simp at hb
  | cons b0 g' =>
    rcases List.mem_cons.mp hb with rfl | hb
    · exact le_foldl_max Bar.h g' b.h
    · exact mem_le_foldl_max Bar.h g' b0.h b hb

lemma specAggBar_l_bound (w : Int) (g : List Bar) (b : Bar) (hb : b ∈ g) :
    (specAggBar w g).l ≤ b.l := by
  cases g with
  | nil => simp at hb
  | cons b0 g' =>
    rcases List.mem_cons.mp hb with rfl | hb
    · exact foldl_min_le Bar.l g' b.l
    · exact foldl_min_le_mem Bar.l g' b0.l b hb

/-- C8, amended: for well-formed OHLC input bars (each bar's open and
close lying between its own low and high — the property the claim
implicitly assumes and the code does not enforce), every output bucket
start is divisible by `w`, every bucket's high bounds all member opens
and closes from above and its low bounds them from below, and total
volume is conserved exactly. -/
theorem c8_amended_bounds_and_volume (w : Int) (hw : 0 < w) (input : List Bar)
    (hsorted : List.Chain' (fun a b => a.ts ≤ b.ts) input)
    (hwf : ∀ b ∈ input, b.l ≤ b.o ∧ b.l ≤ b.c ∧ b.o ≤ b.h ∧ b.c ≤ b.h) :
    (∀ ob ∈ resample_ohlc w input, ob.ts % w = 0)
    ∧ (∀ g ∈ specGroups w input, ∀ b ∈ g,
        b.o ≤ (specAggBar w g).h ∧ b.c ≤ (specAggBar w g).h
        ∧ (specAggBar w g).l ≤ b.o ∧ (specAggBar w g).l ≤ b.c)
    ∧ resample_ohlc w input = (specGroups w input).map (specAggBar w)
    ∧ ((resample_ohlc w input).map Bar.v).sum = (input.map Bar.v).sum := by
  have hmain := resample_ohlc_eq_specMap w input
  refine ⟨?_, ?_, hmain, ?_⟩
  · intro ob hob
    rw [hmain] at hob
    obtain ⟨g, hg, rfl⟩ := List.mem_map.mp hob
    have hne := specGroups_ne_nil w input g hg
    cases g with
    | nil => exact absurd rfl hne
    | cons b0 g' =>
      rw [specAggBar_ts]
      exact bucketStart_emod w b0.ts
  · intro g hg b hb
    have hbin : b ∈ input := by
      rw [← specGroups_flatten w input]
      exact List.mem_flatten.mpr ⟨g, hg, hb⟩
    obtain ⟨h1, h2, h3, h4⟩ := hwf b hbin
    have hh := specAggBar_h_bound w g b hb
    have hl := specAggBar_l_bound w g b hb
    exact ⟨le_trans h3 hh, le_trans h4 hh, le_trans hl h1, le_trans hl h2⟩
  · rw [hmain]
    rw [List.map_map]
    have hcongr :
        (specGroups w input).map (Bar.v ∘ specAggBar w)
          = (specGroups w input).map (fun g => (g.map Bar.v).sum) := by
      apply List.map_congr_left
      intro g _
      exact specAggBar_v w g
    rw [hcongr, sum_v_flatten, specGroups_flatten]

/-- Witness for the amended C8 at a concrete three-bar input with
width 2. -/
theorem c8_witness :
    (0 : Int) < 2
    ∧ ((∀ ob ∈ resample_ohlc 2
          [{ ts := 0, o := 10, h := 12, l := 9, c := 11, v := 5 },
           { ts := 1, o := 11, h := 13, l := 8, c := 10, v := 2 },
           { ts := 5, o := 7, h := 9, l := 6, c := 8, v := 1 }], ob.ts % 2 = 0)
        ∧ (∀ g ∈ specGroups 2
            [{ ts := 0, o := 10, h := 12, l := 9, c := 11, v := 5 },
             { ts := 1, o := 11, h := 13, l := 8, c := 10, v := 2 },
             { ts := 5, o := 7, h := 9, l := 6, c := 8, v := 1 }], ∀ b ∈ g,
            b.o ≤ (specAggBar 2 g).h ∧ b.c ≤ (specAggBar 2 g).h
            ∧ (specAggBar 2 g).l ≤ b.o ∧ (specAggBar 2 g).l ≤ b.c)
        ∧ resample_ohlc 2
            [{ ts := 0, o := 10, h := 12, l := 9, c := 11, v := 5 },
             { ts := 1, o := 11, h := 13, l := 8, c := 10, v := 2 },
             { ts := 5, o := 7, h := 9, l := 6, c := 8, v := 1 }]
            = (specGroups 2
                [{ ts := 0, o := 10, h := 12, l := 9, c := 11, v := 5 },
                 { ts := 1, o := 11, h := 13, l := 8, c := 10, v := 2 },
                 { ts := 5, o := 7, h := 9, l := 6, c := 8, v := 1 }]).map (specAggBar 2)
        ∧ ((resample_ohlc 2
            [{ ts := 0, o := 10, h := 12, l := 9, c := 11, v := 5 },
             { ts := 1, o := 11, h := 13, l := 8, c := 10, v := 2 },
             { ts := 5, o := 7, h := 9, l := 6, c := 8, v := 1 }]).map Bar.v).sum
            = (([{ ts := 0, o := 10, h := 12, l := 9, c := 11, v := 5 },
                 { ts := 1, o := 11, h := 13, l := 8, c := 10, v := 2 },
                 { ts := 5, o := 7, h := 9, l := 6, c := 8, v := 1 }] : List Bar).map Bar.v).sum) :=
  ⟨by decide,
    c8_amended_bounds_and_volume 2 (by decide) _
      (by simp [List.chain'_cons, List.chain'_singleton]) (by decide)⟩

-- ### Result materialization store: paging (`get_historical_data_chunk`)

/-- Python slice-bound normalisation: a negative index counts from the
end (clamped at 0), a non-negative one is clamped at the length. -/
def pyBound (n : Nat) (i : Int) : Nat :=
  if i < 0 then (max (i + (n : Int)) 0).toNat else min i.toNat n

/-- Python list slicing `l[a:b]` with arbitrary (possibly negative)
integer bounds. -/
def pySlice (l : List Bar) (a b : Int) : List Bar :=
  (l.take (pyBound l.length b)).drop (pyBound l.length a)

/-- `str.startswith(p)`, on the character lists. -/
def strStarts (p s : String) : Bool :=
  p.data.isPrefixOf s.data

/-- Outcome of `get_historical_data_chunk`
(`historical_data_service.py`, lines 395-421): HTTP 400 for a handle
not starting with `chart_data:`, HTTP 404 for an expired/unknown
handle, otherwise the slice together with echoed offset/limit and the
total count. -/
inductive ChunkResult where
  | badRequest
  | notFound
  | ok (candles : List Bar) (offset limit total : Int)
deriving DecidableEq

/-- `get_historical_data_chunk(request_id, offset, limit)`: validate the
handle format, look the stored series up, return an empty slice when
`offset >= total_available`, else the Python slice
`full_data[offset : offset + limit]`. -/
def get_historical_data_chunk (lookup : String → Option (List Bar))
    (request_id : String) (offset limit : Int) : ChunkResult :=
  if !(strStarts "chart_data:" request_id) then ChunkResult.badRequest
  else
    match lookup request_id with
    | none => ChunkResult.notFound
    | some full_data =>
      let total : Int := full_data.length
      if total ≤ offset then ChunkResult.ok [] offset limit total
      else ChunkResult.ok (pySlice full_data offset (offset + limit)) offset limit total

-- ### Upstream fetch (`fetch_from_dtn_iq_api`)

/-- What the IQFeed history call can come back with
(`historical_data_service.py`, lines 91-197): a numpy array of rows, a
`None`/empty response, or one of the three caught exception classes
(`iq.NoDataError`, `iq.UnauthorizedError`, any other `Exception`). -/
inductive IQOutcome where
  | ndarrayData (rows : List Bar)
  | noneOrEmpty
  | raiseNoData
  | raiseUnauthorized
  | raiseOther
deriving DecidableEq

/-- The failure channel a propagating implementation would use; the
embedded function never actually returns `Except.error`. -/
inductive FetchFailure where
  | unauthorizedFailure
  | noDataFailure
  | otherFailure
deriving DecidableEq

/-- `fetch_from_dtn_iq_api`: no connection yields an empty (successful)
list; array data is filtered to `start <= ts <= end` (the numpy mask of
lines 142-143); every raised condition is caught, logged and the
accumulated (empty) candle list returned (lines 189-199).  The
`Except` result type records that nothing propagates: every branch is
`Except.ok`. -/
def fetch_from_dtn_iq_api (connAvailable : Bool) (outcome : IQOutcome)
    (startTs endTs : Int) : Except FetchFailure (List Bar) :=
  if connAvailable = false then Except.ok []
  else
    match outcome with
    | IQOutcome.ndarrayData rows =>
        Except.ok (rows.filter (fun b => decide (startTs ≤ b.ts) && decide (b.ts ≤ endTs)))
    | IQOutcome.noneOrEmpty => Except.ok []
    | IQOutcome.raiseNoData => Except.ok []
    | IQOutcome.raiseUnauthorized => Except.ok []
    | IQOutcome.raiseOther => Except.ok []

-- ### Day-partitioned base cache (`_get_and_prepare_1s_data_for_range`)

def secondsPerDay : Int := 86400

/-- UTC calendar day of a timestamp (`start_time.date()`). -/
def dayOf (ts : Int) : Int := ts.fdiv secondsPerDay

/-- `pd.date_range(start.date(), end.date())`: the consecutive days from
`d1` to `d2`, empty when `d1 > d2`. -/
def dayRange (d1 d2 : Int) : List Int :=
  (List.range (d2 - d1 + 1).toNat).map (fun i => d1 + (i : Int))

/-- One day-partition entry as the mget/parse step classifies it: key
absent, present but unparseable (`json.JSONDecodeError`/`TypeError`),
or a parsed (possibly empty) list of bars. -/
inductive CacheEntry where
  | missingEntry
  | corruptEntry
  | storedBars (bars : List Bar)
deriving DecidableEq

/-- A parseable stored value is a hit and contributes its bars; absent
and corrupt entries are not hits. -/
def dayHitBars : CacheEntry → Option (List Bar)
  | CacheEntry.storedBars bs => some bs
  | _ => none

/-- Days appended to `missing_dates` (lines 227-240): key absent, or
present but unparseable. -/
def isMissingEntry : CacheEntry → Bool
  | CacheEntry.storedBars _ => false
  | _ => true

def missingDays (cache : Int → CacheEntry) (days : List Int) : List Int :=
  days.filter (fun d => isMissingEntry (cache d))

def hitBars (cache : Int → CacheEntry) (days : List Int) : List Bar :=
  (days.filterMap (fun d => dayHitBars (cache d))).flatten

def listMinI : List Int → Int
  | [] => 0
  | x :: xs => xs.foldl min x

def listMaxI : List Int → Int
  | [] => 0
  | x :: xs => xs.foldl max x

/-- `datetime.combine(min(missing_dates), datetime.min.time())`. -/
def fetchSpanStart (missing : List Int) : Int :=
  listMinI missing * secondsPerDay

/-- `datetime.combine(max(missing_dates), datetime.max.time())`, at the
second granularity of this model: the last second of the day. -/
def fetchSpanEnd (missing : List Int) : Int :=
  listMaxI missing * secondsPerDay + (secondsPerDay - 1)

def insertByTs (b : Bar) : List Bar → List Bar
  | [] => [b]
  | x :: xs => if b.ts < x.ts then b :: x :: xs else x :: insertByTs b xs

/-- `all_1s_candles.sort(key=lambda c: c.timestamp)`. -/
def sortByTs : List Bar → List Bar
  | [] => []
  | x :: xs => insertByTs x (sortByTs xs)

/-- Final sort plus clip to the caller's exact `[start, end]` bounds
(lines 289-295). -/
def clipToRange (bars : List Bar) (startTs endTs : Int) : List Bar :=
  (sortByTs bars).filter (fun b => decide (startTs ≤ b.ts) && decide (b.ts ≤ endTs))

/-- Observable effects of one call of
`_get_and_prepare_1s_data_for_range`: the returned series, the upstream
fetch calls issued (as `(start, end)` spans) and the day-partition
cache writes performed. -/
structure ResolveOut where
  result : List Bar
  fetchCalls : List (Int × Int)
  cacheWrites : List (Int × List Bar)
deriving DecidableEq

/-- `_get_and_prepare_1s_data_for_range` (lines 207-297): batched
day-partition read, coalesced single upstream fetch over the missing
span when any day is missing, write-back of every missing day grouped
by calendar day — but only when the fetch returned at least one bar
(`if newly_fetched_data:` / `if not new_data_df.empty:`), then sort and
clip. -/
def get_and_prepare_1s_data_for_range (cache : Int → CacheEntry)
    (upstream : Int → Int → List Bar) (startTs endTs : Int) : ResolveOut :=
  if missingDays cache (dayRange (dayOf startTs) (dayOf endTs)) = [] then
    { result := clipToRange (hitBars cache (dayRange (dayOf startTs) (dayOf endTs)))
        startTs endTs
      fetchCalls := []
      cacheWrites := [] }
  else if upstream
      (fetchSpanStart (missingDays cache (dayRange (dayOf startTs) (dayOf endTs))))
      (fetchSpanEnd (missingDays cache (dayRange (dayOf startTs) (dayOf endTs)))) = [] then
    { result := clipToRange (hitBars cache (dayRange (dayOf startTs) (dayOf endTs)))
        startTs endTs
      fetchCalls := [(fetchSpanStart (missingDays cache (dayRange (dayOf startTs) (dayOf endTs))),
        fetchSpanEnd (missingDays cache (dayRange (dayOf startTs) (dayOf endTs))))]
      cacheWrites := [] }
  else
    { result := clipToRange
        (hitBars cache (dayRange (dayOf startTs) (dayOf endTs))
          ++ upstream
            (fetchSpanStart (missingDays cache (dayRange (dayOf startTs) (dayOf endTs))))
            (fetchSpanEnd (missingDays cache (dayRange (dayOf startTs) (dayOf endTs)))))
        startTs endTs
      fetchCalls := [(fetchSpanStart (missingDays cache (dayRange (dayOf startTs) (dayOf endTs))),
        fetchSpanEnd (missingDays cache (dayRange (dayOf startTs) (dayOf endTs))))]
      cacheWrites := (missingDays cache (dayRange (dayOf startTs) (dayOf endTs))).map
        (fun d => (d,
          (upstream
            (fetchSpanStart (missingDays cache (dayRange (dayOf startTs) (dayOf endTs))))
            (fetchSpanEnd (missingDays cache (dayRange (dayOf startTs) (dayOf endTs))))).filter
            (fun b => dayOf b.ts == d))) }

-- ### Session-scoped keys and the expiry sweep (`cleanup_expired_sessions_task`)

/-- The key families of the cache, represented structurally.  Their
string formats are mutually prefix-disjoint:
`session:{token}` (utility_router.py), `user:{token}:{rest}`
(cache_cleanup_tasks.py line 36), `ohlc:{exchange}:{symbol}:{interval}:{date}:{token}`
(spec section 6), `chart_data:{token}:{uuid}`
(historical_data_service.py line 352). -/
inductive RKey where
  | sessionMarker (token : String)
  | userData (token : String) (rest : String)
  | ohlcDay (exchange symbol interval dateStr token : String)
  | chartData (token : String) (id : String)
deriving DecidableEq

/-- A stored value: the integer heartbeat of a session marker, or an
opaque data blob. -/
inductive RVal where
  | intVal (t : Int)
  | blob
deriving DecidableEq

abbrev Store := List (RKey × RVal)

/-- Modelled from the spec: `build_ohlc_cache_key` lives in
`app/core/cache.py`, which is absent from the sources (only its callers
are present); spec section 6 fixes the key format
`ohlc:{exchange}:{symbol}:1s:{YYYY-MM-DD}:{session_token}`. -/
def build_ohlc_cache_key (exchange symbol interval dateStr token : String) : RKey :=
  RKey.ohlcDay exchange symbol interval dateStr token

/-- `SESSION_TIMEOUT_SECONDS = 30 * 60` (cache_cleanup_tasks.py, line 7). -/
def SESSION_TIMEOUT_SECONDS : Int := 30 * 60

/-- `redis_client.scan_iter("session:*")`: the tokens of all session
marker keys. -/
def sessionTokens (store : Store) : List String :=
  store.filterMap (fun p =>
    match p.1 with
    | RKey.sessionMarker t => some t
    | _ => none)

def rget (store : Store) (k : RKey) : Option RVal :=
  (store.find? (fun p => p.1 == k)).map Prod.snd

/-- `user:{session_token}:*` pattern match of the sweep. -/
def matchesUserData (token : String) : RKey → Bool
  | RKey.userData t _ => t == token
  | _ => false

/-- Body of the sweep's per-session loop (cache_cleanup_tasks.py, lines
22-45): read the marker, compare `now - last_seen` against the timeout
strictly, and on expiry delete the marker key plus every key matching
`user:{token}:*`. -/
def processSession (now : Int) (store : Store) (token : String) : Store :=
  match rget store (RKey.sessionMarker token) with
  | some (RVal.intVal lastSeen) =>
      if now - lastSeen > SESSION_TIMEOUT_SECONDS then
        (store.filter (fun p => !(p.1 == RKey.sessionMarker token))).filter
          (fun p => !(matchesUserData token p.1))
      else store
  | _ => store

/-- `cleanup_expired_sessions_task`: scan the session markers once, then
process each in turn against the evolving store. -/
def cleanup_expired_sessions_task (now : Int) (store : Store) : Store :=
  (sessionTokens store).foldl (processSession now) store

lemma pyBound_nonneg_lt (n : Nat) (i : Int) (h0 : 0 ≤ i) (hlt : i < (n : Int)) :
    pyBound n i = i.toNat := by
  unfold pyBound
  rw [if_neg (by omega)]
  omega

lemma pyBound_nonneg (n : Nat) (i : Int) (h0 : 0 ≤ i) :
    pyBound n i = (min i (n : Int)).toNat := by
  unfold pyBound
  rw [if_neg (by omega)]
  omega

lemma chunk_beyond (lookup : String → Option (List Bar)) (request_id : String)
    (offset limit : Int) (full_data : List Bar)
    (hvalid : strStarts "chart_data:" request_id = true)
    (hfound : lookup request_id = some full_data)
    (hge : (full_data.length : Int) ≤ offset) :
    get_historical_data_chunk lookup request_id offset limit
      = ChunkResult.ok [] offset limit full_data.length := by
  unfold get_historical_data_chunk
  rw [hvalid]
  simp only [Bool.not_true, Bool.false_eq_true, if_false, hfound]
  rw [if_pos hge]

lemma chunk_within (lookup : String → Option (List Bar)) (request_id : String)
    (offset limit : Int) (full_data : List Bar)
    (hvalid : strStarts "chart_data:" request_id = true)
    (hfound : lookup request_id = some full_data)
    (ho : 0 ≤ offset) (hl : 0 ≤ limit)
    (hlt : offset < (full_data.length : Int)) :
    get_historical_data_chunk lookup request_id offset limit
      = ChunkResult.ok
          ((full_data.take (min (offset + limit) (full_data.length : Int)).toNat).drop
            offset.toNat)
          offset limit full_data.length := by
  unfold get_historical_data_chunk
  rw [hvalid]
  simp only [Bool.not_true, Bool.false_eq_true, if_false, hfound]
  rw [if_neg (by omega)]
  unfold pySlice
  rw [pyBound_nonneg_lt full_data.length offset ho hlt,
    pyBound_nonneg full_data.length (offset + limit) (by omega)]

/-- Bar used for the concrete 10000-bar paging series. -/
def demoBar (i : Nat) : Bar :=
  { ts := (i : Int), o := 0, h := 0, l := 0, c := 0, v := 0 }

/-- The 10000-bar materialized series of the claim's concrete example. -/
def demoSeries : List Bar := (List.range 10000).map demoBar

/-- C6: paging a stored series of length `total` with a valid existing
handle returns an empty slice with the correct total when
`offset >= total` (no error), and otherwise the bars from index
`offset` up to `min(offset + limit, total)`.  In particular, on a
10000-bar series, offset 9000 with limit 5000 returns exactly the 1000
bars 9000-9999 with total 10000, and offset 10000 returns an empty
slice with total 10000. -/
theorem c6_pagination_clamps (lookup : String → Option (List Bar)) (request_id : String)
    (offset limit : Int) (full_data : List Bar)
    (hvalid : strStarts "chart_data:" request_id = true)
    (hfound : lookup request_id = some full_data)
    (ho : 0 ≤ offset) (hl : 0 ≤ limit) :
    ((full_data.length : Int) ≤ offset →
      get_historical_data_chunk lookup request_id offset limit
        = ChunkResult.ok [] offset limit full_data.length)
    ∧ (offset < (full_data.length : Int) →
      get_historical_data_chunk lookup request_id offset limit
        = ChunkResult.ok
            ((full_data.take (min (offset + limit) (full_data.length : Int)).toNat).drop
              offset.toNat)
            offset limit full_data.length)
    ∧ (get_historical_data_chunk (fun _ => some demoSeries) "chart_data:demo" 9000 5000
        = ChunkResult.ok ((demoSeries.take 10000).drop 9000) 9000 5000 10000
        ∧ ((demoSeries.take 10000).drop 9000).length = 1000)
    ∧ get_historical_data_chunk (fun _ => some demoSeries) "chart_data:demo" 10000 100
        = ChunkResult.ok [] 10000 100 10000 := by
  have hdemolen : demoSeries.length = 10000 := by
    simp [demoSeries]
  refine ⟨?_, ?_, ⟨?_, ?_⟩, ?_⟩
  · intro hge
    exact chunk_beyond lookup request_id offset limit full_data hvalid hfound hge
  · intro hlt
    exact chunk_within lookup request_id offset limit full_data hvalid hfound ho hl hlt
  · have h := chunk_within (fun _ => some demoSeries) "chart_data:demo" 9000 5000 demoSeries
      (by decide) rfl (by norm_num) (by norm_num) (by simp [hdemolen])
    rw [h, hdemolen]
    norm_num
    rfl
  · simp [List.length_drop, List.length_take, hdemolen]
  · have h := chunk_beyond (fun _ => some demoSeries) "chart_data:demo" 10000 100 demoSeries
      (by decide) rfl (by simp [hdemolen])
    rw [h, hdemolen]
    simp

/-- Witness for C6 on a concrete 3-bar series with in-range and
out-of-range offsets. -/
theorem c6_witness :
    strStarts "chart_data:" "chart_data:w" = true
    ∧ (fun _ : String => some [demoBar 0, demoBar 1, demoBar 2]) "chart_data:w"
        = some [demoBar 0, demoBar 1, demoBar 2]
    ∧ (0 : Int) ≤ 1 ∧ (0 : Int) ≤ 5
    ∧ ((([demoBar 0, demoBar 1, demoBar 2] : List Bar).length : Int) ≤ 1 →
        get_historical_data_chunk (fun _ => some [demoBar 0, demoBar 1, demoBar 2])
          "chart_data:w" 1 5
          = ChunkResult.ok [] 1 5 ([demoBar 0, demoBar 1, demoBar 2] : List Bar).length)
    ∧ ((1 : Int) < (([demoBar 0, demoBar 1, demoBar 2] : List Bar).length : Int) →
        get_historical_data_chunk (fun _ => some [demoBar 0, demoBar 1, demoBar 2])
          "chart_data:w" 1 5
          = ChunkResult.ok
              ((([demoBar 0, demoBar 1, demoBar 2] : List Bar).take
                  (min ((1 : Int) + 5)
                    (([demoBar 0, demoBar 1, demoBar 2] : List Bar).length : Int)).toNat).drop
                (1 : Int).toNat)
              1 5 ([demoBar 0, demoBar 1, demoBar 2] : List Bar).length) :=
  ⟨by decide, rfl, by decide, by decide,
    (c6_pagination_clamps (fun _ => some [demoBar 0, demoBar 1, demoBar 2]) "chart_data:w"
      1 5 [demoBar 0, demoBar 1, demoBar 2] (by decide) rfl (by decide) (by decide)).1,
    (c6_pagination_clamps (fun _ => some [demoBar 0, demoBar 1, demoBar 2]) "chart_data:w"
      1 5 [demoBar 0, demoBar 1, demoBar 2] (by decide) rfl (by decide) (by decide)).2.1⟩

/-- C10: the page operation does not validate that `offset` is
non-negative: on a stored non-empty 10-bar series, offset `-1` with
limit `11` passes the `offset >= total` guard, reaches Python slicing,
and returns the non-empty tail slice `[bar 9]` while echoing the
negative offset back — it neither rejects the request nor returns an
empty slice. -/
theorem c10_negative_offset_tail_slice :
    get_historical_data_chunk (fun _ => some ((List.range 10).map demoBar))
        "chart_data:x" (-1) 11
      = ChunkResult.ok [demoBar 9] (-1) 11 10
    ∧ ([demoBar 9] : List Bar) ≠ []
    ∧ ((List.range 10).map demoBar) ≠ [] := by
  refine ⟨by decide, by decide, by decide⟩

/-- Counterexample to C3 as stated: when the upstream raises the
unauthorized condition, `fetch_from_dtn_iq_api` does not propagate any
failure — the handler at lines 191-192 catches and logs it, and the
function returns the (empty) accumulated candle list as a successful
result, indistinguishable from a successful empty fetch. -/
theorem c3_counterexample_unauthorized_swallowed :
    fetch_from_dtn_iq_api true IQOutcome.raiseUnauthorized 0 86399
      = Except.ok ([] : List Bar)
    ∧ (fetch_from_dtn_iq_api true IQOutcome.raiseUnauthorized 0 86399).isOk = true := by
  refine ⟨rfl, rfl⟩

/-- C3, amended: both the "no data" and the "unauthorized" upstream
conditions are caught and logged inside the fetch and yield an empty,
successful result to the caller; neither propagates as a failure. -/
theorem c3_amended_unauthorized_and_nodata_ok_empty (startTs endTs : Int) :
    fetch_from_dtn_iq_api true IQOutcome.raiseNoData startTs endTs
      = Except.ok ([] : List Bar)
    ∧ fetch_from_dtn_iq_api true IQOutcome.raiseUnauthorized startTs endTs
      = Except.ok ([] : List Bar) := by
  refine ⟨rfl, rfl⟩

/-- C4: whenever at least one enumerated day of the requested range is
a cache miss (absent or unparseable), exactly one upstream fetch is
issued, spanning from the start of the earliest missing day to the end
of the latest missing day, however many missing days there are and
however they interleave with cached days. -/
theorem c4_single_coalesced_fetch (cache : Int → CacheEntry)
    (upstream : Int → Int → List Bar) (startTs endTs : Int)
    (hmiss : missingDays cache (dayRange (dayOf startTs) (dayOf endTs)) ≠ []) :
    (get_and_prepare_1s_data_for_range cache upstream startTs endTs).fetchCalls
      = [(fetchSpanStart (missingDays cache (dayRange (dayOf startTs) (dayOf endTs))),
          fetchSpanEnd (missingDays cache (dayRange (dayOf startTs) (dayOf endTs))))] := by
  unfold get_and_prepare_1s_data_for_range
  rw [if_neg hmiss]
  split <;> rfl

/-- Witness for C4: a five-day range with days 1 and 3 cached (day 1
empty, day 3 holding one bar) and days 0, 2, 4 missing; the single
fetch spans day 0's first second to day 4's last second. -/
theorem c4_witness :
    missingDays
        (fun d => if d = 1 then CacheEntry.storedBars []
          else if d = 3 then CacheEntry.storedBars [demoBar 3] else CacheEntry.missingEntry)
        (dayRange (dayOf 0) (dayOf 345600)) ≠ []
    ∧ (get_and_prepare_1s_data_for_range
          (fun d => if d = 1 then CacheEntry.storedBars []
            else if d = 3 then CacheEntry.storedBars [demoBar 3] else CacheEntry.missingEntry)
          (fun _ _ => []) 0 345600).fetchCalls
        = [(fetchSpanStart (missingDays
              (fun d => if d = 1 then CacheEntry.storedBars []
                else if d = 3 then CacheEntry.storedBars [demoBar 3]
                else CacheEntry.missingEntry)
              (dayRange (dayOf 0) (dayOf 345600))),
            fetchSpanEnd (missingDays
              (fun d => if d = 1 then CacheEntry.storedBars []
                else if d = 3 then CacheEntry.storedBars [demoBar 3]
                else CacheEntry.missingEntry)
              (dayRange (dayOf 0) (dayOf 345600))))] :=
  ⟨by decide,
    c4_single_coalesced_fetch
      (fun d => if d = 1 then CacheEntry.storedBars []
        else if d = 3 then CacheEntry.storedBars [demoBar 3] else CacheEntry.missingEntry)
      (fun _ _ => []) 0 345600 (by decide)⟩

/-- Counterexample to C5 as stated: day 0 is missing and the resolve
issues the upstream fetch for it, but the upstream returns zero bars,
so (because the write-back is guarded by `if newly_fetched_data:`)
nothing at all is written back — the missing day is not stored as an
explicit empty partition and would be refetched by the next call. -/
theorem c5_counterexample_empty_fetch_writes_nothing :
    missingDays (fun _ => CacheEntry.missingEntry) (dayRange (dayOf 0) (dayOf 0)) = [0]
    ∧ (get_and_prepare_1s_data_for_range (fun _ => CacheEntry.missingEntry)
        (fun _ _ => []) 0 0).fetchCalls = [(0, 86399)]
    ∧ (get_and_prepare_1s_data_for_range (fun _ => CacheEntry.missingEntry)
        (fun _ _ => []) 0 0).cacheWrites = [] := by
  refine ⟨by decide, by decide, by decide⟩

/-- C5, amended: provided the coalesced upstream fetch returned at
least one bar, every missing day of the range is written back in the
batched cache write — a missing day for which the fetch carried no bars
is written as an explicit empty partition — and a present-but-empty
partition is a hit on any lookup: it contributes no bars and is never
scheduled for refetch.  (When the fetch returns zero bars overall,
nothing is written and the days stay missing, per the failure-semantics
clause of the spec.) -/
theorem c5_amended_writeback (cache : Int → CacheEntry)
    (upstream : Int → Int → List Bar) (startTs endTs : Int)
    (hmiss : missingDays cache (dayRange (dayOf startTs) (dayOf endTs)) ≠ [])
    (hnew : upstream
        (fetchSpanStart (missingDays cache (dayRange (dayOf startTs) (dayOf endTs))))
        (fetchSpanEnd (missingDays cache (dayRange (dayOf startTs) (dayOf endTs)))) ≠ []) :
    (get_and_prepare_1s_data_for_range cache upstream startTs endTs).cacheWrites
      = (missingDays cache (dayRange (dayOf startTs) (dayOf endTs))).map
          (fun d => (d,
            (upstream
              (fetchSpanStart (missingDays cache (dayRange (dayOf startTs) (dayOf endTs))))
              (fetchSpanEnd
                (missingDays cache (dayRange (dayOf startTs) (dayOf endTs))))).filter
              (fun b => dayOf b.ts == d)))
    ∧ dayHitBars (CacheEntry.storedBars []) = some []
    ∧ (∀ (cache2 : Int → CacheEntry) (days2 : List Int) (d : Int),
        cache2 d = CacheEntry.storedBars [] → d ∉ missingDays cache2 days2) := by
  refine ⟨?_, rfl, ?_⟩
  · unfold get_and_prepare_1s_data_for_range
    rw [if_neg hmiss]
    rw [if_neg hnew]
  · intro cache2 days2 d hstored hd
    unfold missingDays at hd
    have := List.of_mem_filter hd
    rw [hstored] at this
    simp [isMissingEntry] at this

/-- Witness for the amended C5: days 0 and 2 missing, day 1 cached
empty; the fetch returns one bar on day 0 and one on day 2, so day 0
and day 2 are both written back (each with its own bar). -/
theorem c5_witness :
    missingDays
        (fun d => if d = 1 then CacheEntry.storedBars [] else CacheEntry.missingEntry)
        (dayRange (dayOf 0) (dayOf 172800)) ≠ []
    ∧ (fun _ _ : Int => [demoBar 10, { ts := 172805, o := 0, h := 0, l := 0, c := 0, v := 0 }])
        (fetchSpanStart (missingDays
          (fun d => if d = 1 then CacheEntry.storedBars [] else CacheEntry.missingEntry)
          (dayRange (dayOf 0) (dayOf 172800))))
        (fetchSpanEnd (missingDays
          (fun d => if d = 1 then CacheEntry.storedBars [] else CacheEntry.missingEntry)
          (dayRange (dayOf 0) (dayOf 172800)))) ≠ []
    ∧ ((get_and_prepare_1s_data_for_range
          (fun d => if d = 1 then CacheEntry.storedBars [] else CacheEntry.missingEntry)
          (fun _ _ => [demoBar 10, { ts := 172805, o := 0, h := 0, l := 0, c := 0, v := 0 }])
          0 172800).cacheWrites
        = (missingDays
            (fun d => if d = 1 then CacheEntry.storedBars [] else CacheEntry.missingEntry)
            (dayRange (dayOf 0) (dayOf 172800))).map
            (fun d => (d,
              ((fun _ _ : Int =>
                  [demoBar 10, { ts := 172805, o := 0, h := 0, l := 0, c := 0, v := 0 }])
                (fetchSpanStart (missingDays
                  (fun d => if d = 1 then CacheEntry.storedBars []
                    else CacheEntry.missingEntry)
                  (dayRange (dayOf 0) (dayOf 172800))))
                (fetchSpanEnd (missingDays
                  (fun d => if d = 1 then CacheEntry.storedBars []
                    else CacheEntry.missingEntry)
                  (dayRange (dayOf 0) (dayOf 172800))))).filter
                (fun b => dayOf b.ts == d)))
        ∧ dayHitBars (CacheEntry.storedBars []) = some []
        ∧ (∀ (cache2 : Int → CacheEntry) (days2 : List Int) (d : Int),
            cache2 d = CacheEntry.storedBars [] → d ∉ missingDays cache2 days2)) :=
  ⟨by decide, by decide,
    c5_amended_writeback
      (fun d => if d = 1 then CacheEntry.storedBars [] else CacheEntry.missingEntry)
      (fun _ _ => [demoBar 10, { ts := 172805, o := 0, h := 0, l := 0, c := 0, v := 0 }])
      0 172800 (by decide) (by decide)⟩

/-- C2, checked against the code: after one sweep, a session whose
heartbeat is 2000 seconds old (past the 1800-second timeout) loses its
marker key and its `user:{token}:*` keys — but its base-cache
day-partition key (`ohlc:...:{token}`) and its materialized-result key
(`chart_data:{token}:...`) survive, because the sweep's bulk-delete
pattern is `user:{token}:*` (cache_cleanup_tasks.py line 36) and
matches neither namespace actually used for session data.  A session
heartbeated 1 second ago keeps all of its keys. -/
theorem c2_cleanup_leaves_session_scoped_data :
    cleanup_expired_sessions_task 2000
        [(RKey.sessionMarker "tok", RVal.intVal 0),
         (build_ohlc_cache_key "NSE" "SYM" "1s" "2024-01-01" "tok", RVal.blob),
         (RKey.chartData "tok" "u1", RVal.blob),
         (RKey.userData "tok" "a", RVal.blob)]
      = [(build_ohlc_cache_key "NSE" "SYM" "1s" "2024-01-01" "tok", RVal.blob),
         (RKey.chartData "tok" "u1", RVal.blob)]
    ∧ (2000 : Int) - 0 > SESSION_TIMEOUT_SECONDS
    ∧ cleanup_expired_sessions_task 2000
        [(RKey.sessionMarker "fresh", RVal.intVal 1999),
         (RKey.chartData "fresh" "u2", RVal.blob)]
      = [(RKey.sessionMarker "fresh", RVal.intVal 1999),
         (RKey.chartData "fresh" "u2", RVal.blob)]
    ∧ (2000 : Int) - 1999 ≤ SESSION_TIMEOUT_SECONDS := by
  refine ⟨by decide, by decide, by decide, by decide⟩
